import Mathlib

/-!
# Water terminal: the system-clipboard bridge and the shortcut dispatcher

A shallow embedding of `src/water/water.c`:

* `detect_display_server`  (water.c 57-64)
* `copy_to_system_clipboard`  (water.c 66-89)
* `paste_from_system_clipboard`  (water.c 91-124)
* `on_key_press`  (water.c 126-170)

The two static arrays `clipboard_internal` and `paste_buffer` are byte lists inside an
explicit `State`.  Everything the functions obtain from outside the process (the
environment, whether `popen` yields a stream, what `fread` obtains from a helper) is an
explicit `World` argument, and everything they do to the outside is recorded in a trace of
`Event`s.  A memory access outside an array is undefined behaviour in C and is `none` here.
-/

namespace Water

/-! ## Bytes, C strings and the C library calls used by the bridge -/

/-- One `char` of memory. -/
abbrev Byte := Fin 256

/-- The terminator `'\0'`. -/
def NUL : Byte := 0

/-- The capacity of both arrays: `#define CLIPBOARD_SIZE 8192` (water.c 20). -/
def CLIPBOARD_SIZE : Nat := 8192

/-- The C string that starts at the beginning of `mem`: the bytes before the first NUL.
For an argument of type `const char*` the list is the string's bytes and the end of the
list stands for the terminator. -/
def cstr (mem : List Byte) : List Byte :=
  mem.takeWhile (fun b => b ≠ NUL)

/-- The call `strlen(buf)` on an array: the index of the first NUL; reading past the end of an array
that holds no NUL is undefined. -/
def strlen (buf : List Byte) : Option Nat :=
  if NUL ∈ buf then some (cstr buf).length else none

/-- The assignment `buf[i] = b`: a store outside the array is undefined. -/
def store (buf : List Byte) (i : Nat) (b : Byte) : Option (List Byte) :=
  if i < buf.length then some (buf.set i b) else none

/-- The call `strncpy(dest, src, n)`: writes exactly `n` bytes to `dest[0..n-1]`, the first
`min(strlen(src), n)` bytes of the string followed by NUL padding; no terminator is added
when the string has `n` bytes or more. -/
def strncpy (dest src : List Byte) (n : Nat) : Option (List Byte) :=
  if n ≤ dest.length then
    some ((cstr src).take n ++ List.replicate (n - (cstr src).length) NUL ++ dest.drop n)
  else none

/-- The call `strcpy(dest, src)` from an array `src`: copies the string and its terminator. -/
def strcpy (dest src : List Byte) : Option (List Byte) :=
  if NUL ∈ src ∧ (cstr src).length + 1 ≤ dest.length then
    some (cstr src ++ [NUL] ++ dest.drop ((cstr src).length + 1))
  else none

/-- The call `fread(buf, 1, n, pipe)` where `stream` is what the pipe delivers before end of file or
a read error: stores the first `min(n, |stream|)` bytes at the start of `buf` and returns
their number. -/
def fread (buf : List Byte) (n : Nat) (stream : List Byte) : Option (List Byte × Nat) :=
  if n ≤ buf.length then
    some (stream.take n ++ buf.drop (stream.take n).length, (stream.take n).length)
  else none

/-! ## The process state and its surroundings -/

/-- The static arrays: `clipboard_internal` (water.c 25) and the function-local static
`paste_buffer` (water.c 92). -/
structure State where
  clipboard_internal : List Byte
  paste_buffer : List Byte
  deriving DecidableEq, Repr

/-- The state at process start: both arrays are zero-initialised statics. -/
def State.init : State :=
  { clipboard_internal := List.replicate CLIPBOARD_SIZE NUL
    paste_buffer := List.replicate CLIPBOARD_SIZE NUL }

/-- The command lines handed to `popen`. -/
inductive Helper
  | wl_copy
  | xclip_in
  | xsel_in
  | wl_paste
  | xclip_out
  | xsel_out
  deriving DecidableEq, Repr

/-- The literal command line of each helper. -/
def Helper.command : Helper → String
  | .wl_copy => "wl-copy"
  | .xclip_in => "xclip -selection clipboard"
  | .xsel_in => "xsel --clipboard --input"
  | .wl_paste => "wl-paste"
  | .xclip_out => "xclip -selection clipboard -o"
  | .xsel_out => "xsel --clipboard --output"

/-- What one call sees of the outside: `getenv`, whether `popen` of a helper yields a
stream, whether the write to a copy helper goes through (the code never looks), and the
bytes a paste helper delivers before end of file or a read error. -/
structure World where
  getenv : String → Option String
  launches : Helper → Bool
  write_ok : Bool
  output : Helper → List Byte

/-- The observable actions. -/
inductive Event
  | popen (h : Helper) (ok : Bool)
  | fprintf (h : Helper) (text : List Byte) (ok : Bool)
  | fread (h : Helper) (len : Nat)
  | pclose (h : Helper)
  | vte_terminal_copy_clipboard_format
  | g_free
  | vte_terminal_paste_clipboard
  | vte_terminal_feed_child (text : List Byte)
  | gtk_main_quit
  deriving DecidableEq, Repr

/-! ## The functions of water.c -/

/-- The function `detect_display_server` (water.c 57-64): 1 for Wayland, 0 for X11, -1
for neither. -/
def detect_display_server (getenv : String → Option String) : Int :=
  if (getenv "WAYLAND_DISPLAY").isSome then
    1
  else if (getenv "DISPLAY").isSome then
    0
  else
    -1

/-- The call `popen(cmd, mode)`: the stream when the helper launches, `NULL` otherwise. -/
def popen (w : World) (h : Helper) : Option Helper × List Event :=
  if w.launches h then (some h, [Event.popen h true]) else (none, [Event.popen h false])

/-- The stream selection of `copy_to_system_clipboard` (water.c 67-79). -/
def copy_pipe (w : World) : Option Helper × List Event :=
  let display_type := detect_display_server w.getenv
  if display_type = 1 then
    popen w Helper.wl_copy
  else if display_type = 0 then
    match popen w Helper.xclip_in with
    | (some p, tr) => (some p, tr)
    | (none, tr) =>
      let r := popen w Helper.xsel_in
      (r.1, tr ++ r.2)
  else
    (none, [])

/-- The function `copy_to_system_clipboard` (water.c 66-89): the new state and the trace.
The result of `fprintf` is not looked at. -/
def copy_to_system_clipboard (w : World) (text : List Byte) (st : State) :
    Option (State × List Event) :=
  match copy_pipe w with
  | (some p, tr) =>
    some (st, tr ++ [Event.fprintf p (cstr text) w.write_ok, Event.pclose p])
  | (none, tr) => do
    let buf ← strncpy st.clipboard_internal text (CLIPBOARD_SIZE - 1)
    let buf ← store buf (CLIPBOARD_SIZE - 1) NUL
    pure ({ st with clipboard_internal := buf }, tr)

/-- The outcome of `paste_from_system_clipboard`: `ret` is `none` for `NULL` and otherwise
the C string at the returned pointer, which always points at `paste_buffer`. -/
structure PasteResult where
  state : State
  trace : List Event
  ret : Option (List Byte)
  deriving DecidableEq, Repr

/-- The stream selection of `paste_from_system_clipboard` (water.c 93-105). -/
def paste_pipe (w : World) : Option Helper × List Event :=
  let display_type := detect_display_server w.getenv
  if display_type = 1 then
    popen w Helper.wl_paste
  else if display_type = 0 then
    match popen w Helper.xclip_out with
    | (some p, tr) => (some p, tr)
    | (none, tr) =>
      let r := popen w Helper.xsel_out
      (r.1, tr ++ r.2)
  else
    (none, [])

/-- The internal fallback of `paste_from_system_clipboard` (water.c 117-123). -/
def paste_fallback (st : State) (tr : List Event) : Option PasteResult := do
  let n ← strlen st.clipboard_internal
  if n > 0 then
    let buf ← strcpy st.paste_buffer st.clipboard_internal
    pure { state := { st with paste_buffer := buf }, trace := tr, ret := some (cstr buf) }
  else
    pure { state := st, trace := tr, ret := none }

/-- The function `paste_from_system_clipboard` (water.c 91-124). -/
def paste_from_system_clipboard (w : World) (st : State) : Option PasteResult :=
  match paste_pipe w with
  | (some p, tr) => do
    let r ← fread st.paste_buffer (CLIPBOARD_SIZE - 1) (w.output p)
    let buf ← store r.1 r.2 NUL
    let st1 : State := { st with paste_buffer := buf }
    let tr1 := tr ++ [Event.fread p r.2, Event.pclose p]
    if r.2 > 0 then
      pure { state := st1, trace := tr1, ret := some (cstr buf) }
    else
      paste_fallback st1 tr1
  | (none, tr) => paste_fallback st tr

/-! ### The shortcut dispatcher -/

/-- The modifier bit `GDK_SHIFT_MASK = 1 << 0` of GDK (gdk/gdktypes.h, included through
gtk/gtk.h at water.c 16). -/
def GDK_SHIFT_MASK : Nat := 1

/-- The modifier bit `GDK_CONTROL_MASK = 1 << 2` of GDK (gdk/gdktypes.h). -/
def GDK_CONTROL_MASK : Nat := 4

/-- The modifier bit `GDK_MOD1_MASK = 1 << 3` of GDK, normally the Alt key
(gdk/gdktypes.h). -/
def GDK_MOD1_MASK : Nat := 8

/-- The key value `GDK_KEY_C = 0x043` of GDK (gdk/gdkkeysyms.h). -/
def GDK_KEY_C : Nat := 0x043

/-- The key value `GDK_KEY_V = 0x056` of GDK (gdk/gdkkeysyms.h). -/
def GDK_KEY_V : Nat := 0x056

/-- The key value `GDK_KEY_Q = 0x051` of GDK (gdk/gdkkeysyms.h). -/
def GDK_KEY_Q : Nat := 0x051

/-- The two fields of `GdkEventKey` the handler reads. -/
structure GdkEventKey where
  state : Nat
  keyval : Nat
  deriving DecidableEq, Repr

/-- What the handler asks of the terminal widget: `vte_terminal_get_has_selection` and
`vte_terminal_get_text_selected` (`none` for `NULL`). -/
structure Terminal where
  has_selection : Bool
  text_selected : Option (List Byte)

/-- The outcome of `on_key_press`: `consumed` is the `gboolean` result. -/
structure KeyResult where
  state : State
  trace : List Event
  consumed : Bool
  deriving DecidableEq, Repr

/-- The test `(event->state & (GDK_CONTROL_MASK | GDK_SHIFT_MASK)) ==
(GDK_CONTROL_MASK | GDK_SHIFT_MASK)` of water.c 130, 147 and 163. -/
def ctrl_shift (event : GdkEventKey) : Bool :=
  event.state &&& (GDK_CONTROL_MASK ||| GDK_SHIFT_MASK) == (GDK_CONTROL_MASK ||| GDK_SHIFT_MASK)

/-- The handler `on_key_press` (water.c 126-170). -/
def on_key_press (w : World) (term : Terminal) (event : GdkEventKey) (st : State) :
    Option KeyResult :=
  if ctrl_shift event && event.keyval == GDK_KEY_C then
    if term.has_selection then
      match term.text_selected with
      | some selection => do
        let r ← copy_to_system_clipboard w selection st
        pure { state := r.1
               trace := [Event.vte_terminal_copy_clipboard_format] ++ r.2 ++ [Event.g_free]
               consumed := true }
      | none =>
        some { state := st, trace := [Event.vte_terminal_copy_clipboard_format],
               consumed := true }
    else
      some { state := st, trace := [], consumed := true }
  else if ctrl_shift event && event.keyval == GDK_KEY_V then do
    let r ← paste_from_system_clipboard w st
    let fed : List Event :=
      match r.ret with
      | some clipboard_text =>
        if clipboard_text.length > 0 then [Event.vte_terminal_feed_child clipboard_text]
        else []
      | none => []
    pure { state := r.state
           trace := [Event.vte_terminal_paste_clipboard] ++ r.trace ++ fed
           consumed := true }
  else if ctrl_shift event && event.keyval == GDK_KEY_Q then
    some { state := st, trace := [Event.gtk_main_quit], consumed := true }
  else
    some { state := st, trace := [], consumed := false }

/-! ## Sequences of clipboard calls -/

/-- One call of the bridge. -/
inductive Call
  | copy (text : List Byte)
  | paste

/-- The state after one call made in world `w`. -/
def step (st : State) (c : World × Call) : Option State :=
  match c.2 with
  | Call.copy text => (copy_to_system_clipboard c.1 text st).map (fun r => r.1)
  | Call.paste => (paste_from_system_clipboard c.1 st).map (fun r => r.state)

/-- The state after a sequence of calls, each in a world of its own. -/
def run (st : State) : List (World × Call) → Option State
  | [] => some st
  | c :: cs => (step st c).bind (fun st1 => run st1 cs)

/-- The arrays have their declared size and `clipboard_internal` holds a terminator. -/
def State.WF (st : State) : Prop :=
  st.clipboard_internal.length = CLIPBOARD_SIZE ∧
  st.paste_buffer.length = CLIPBOARD_SIZE ∧
  NUL ∈ st.clipboard_internal

instance (st : State) : Decidable st.WF := by
  unfold State.WF
  exact inferInstance

/-- The helpers `popen` was called on, in order. -/
def attempts : List Event → List Helper
  | [] => []
  | Event.popen h _ :: es => h :: attempts es
  | _ :: es => attempts es

/-- The helpers that launched, in order. -/
def launched : List Event → List Helper
  | [] => []
  | Event.popen h true :: es => h :: launched es
  | _ :: es => launched es

/-- The texts written to helpers, in order. -/
def writes : List Event → List (Helper × List Byte)
  | [] => []
  | Event.fprintf h t _ :: es => (h, t) :: writes es
  | _ :: es => writes es

/-- A world without a graphical session in which nothing launches. -/
def World.bare : World :=
  { getenv := fun _ => none
    launches := fun _ => false
    write_ok := true
    output := fun _ => [] }

/-- The image of `clipboard_internal` after the internal fallback of a copy of `text`. -/
def stored (text : List Byte) : List Byte :=
  (cstr text).take (CLIPBOARD_SIZE - 1) ++
    List.replicate (CLIPBOARD_SIZE - 1 - (cstr text).length) NUL ++ [NUL]

/-- An environment in which `WAYLAND_DISPLAY` and `DISPLAY` are set as told and nothing
else is. -/
def env_of (wayland x11 : Bool) : String → Option String :=
  fun k =>
    if k = "WAYLAND_DISPLAY" then (if wayland then some "wayland-0" else none)
    else if k = "DISPLAY" then (if x11 then some ":0" else none)
    else none

/-- The text `hello`. -/
def hello : List Byte := [104, 101, 108, 108, 111]

/-- A world whose environment is `env_of wayland x11`, with the given launch outcomes, in
which every paste helper delivers `out`. -/
def World.of (wayland x11 : Bool) (launches : Helper → Bool) (out : List Byte) : World :=
  { getenv := env_of wayland x11
    launches := launches
    write_ok := true
    output := fun _ => out }

/-- A world on X11 in which `xclip` launches and the write to it fails. -/
def World.write_fails : World :=
  { getenv := env_of false true
    launches := fun _ => true
    write_ok := false
    output := fun _ => [] }

/-- The values returned by pastes made one after the other, one in each world of `ws`. -/
def pastes (st : State) : List World → Option (List (Option (List Byte)))
  | [] => some []
  | w :: ws =>
    (paste_from_system_clipboard w st).bind (fun r =>
      (pastes r.state ws).map (fun rest => r.ret :: rest))

/-! ## C strings -/

theorem cstr_nil : cstr [] = [] := rfl

theorem cstr_cons_nul (l : List Byte) : cstr (NUL :: l) = [] := by
  simp [cstr]

theorem cstr_cons_ne (b : Byte) (l : List Byte) (h : b ≠ NUL) : cstr (b :: l) = b :: cstr l := by
  simp [cstr, h]

theorem cstr_no_nul (l : List Byte) : ∀ b ∈ cstr l, b ≠ NUL := by
  intro b hb
  have := List.mem_takeWhile_imp hb
  simpa using this

theorem cstr_eq_self (l : List Byte) (h : ∀ b ∈ l, b ≠ NUL) : cstr l = l := by
  induction l with
  | nil => rfl
  | cons a l ih =>
    have ha : a ≠ NUL := h a (List.mem_cons_self a l)
    rw [cstr_cons_ne a l ha, ih (fun b hb => h b (List.mem_cons_of_mem a hb))]

theorem cstr_append_nul (l r : List Byte) (h : ∀ b ∈ l, b ≠ NUL) : cstr (l ++ NUL :: r) = l := by
  induction l with
  | nil => exact cstr_cons_nul r
  | cons a l ih =>
    have ha : a ≠ NUL := h a (List.mem_cons_self a l)
    rw [List.cons_append, cstr_cons_ne a _ ha, ih (fun b hb => h b (List.mem_cons_of_mem a hb))]

theorem cstr_append_nul_any (l r : List Byte) : cstr (l ++ NUL :: r) = cstr l := by
  induction l with
  | nil => rw [List.nil_append, cstr_cons_nul, cstr_nil]
  | cons a l ih =>
    by_cases ha : a = NUL
    · subst ha; rw [List.cons_append, cstr_cons_nul, cstr_cons_nul]
    · rw [List.cons_append, cstr_cons_ne a _ ha, cstr_cons_ne a _ ha, ih]

theorem cstr_length_le (l : List Byte) : (cstr l).length ≤ l.length := by
  induction l with
  | nil => simp [cstr]
  | cons a l ih =>
    by_cases ha : a = NUL
    · subst ha; simp [cstr_cons_nul]
    · simp [cstr_cons_ne a l ha]; exact ih

theorem cstr_length_lt (l : List Byte) (h : NUL ∈ l) : (cstr l).length < l.length := by
  induction l with
  | nil => simp at h
  | cons a l ih =>
    by_cases ha : a = NUL
    · subst ha; simp [cstr_cons_nul]
    · have hl : NUL ∈ l := by
        rcases List.mem_cons.mp h with h1 | h1
        · exact absurd h1.symm ha
        · exact h1
      simp [cstr_cons_ne a l ha]; exact ih hl

theorem cstr_eq_nil_iff (l : List Byte) (h : l ≠ []) : cstr l = [] ↔ l.head? = some NUL := by
  cases l with
  | nil => exact absurd rfl h
  | cons a l =>
    by_cases ha : a = NUL
    · subst ha; simp [cstr_cons_nul]
    · simp [cstr_cons_ne a l ha, ha]

theorem strlen_of_mem (buf : List Byte) (h : NUL ∈ buf) : strlen buf = some (cstr buf).length := by
  simp [strlen, h]

/-! ## The stream selection and the initial state -/

theorem CLIPBOARD_SIZE_succ : CLIPBOARD_SIZE - 1 + 1 = CLIPBOARD_SIZE := by decide

theorem detect_wayland (g : String → Option String) (h : (g "WAYLAND_DISPLAY").isSome = true) :
    detect_display_server g = 1 := by
  simp [detect_display_server, h]

theorem detect_x11 (g : String → Option String) (h : (g "WAYLAND_DISPLAY").isSome = false)
    (hd : (g "DISPLAY").isSome = true) : detect_display_server g = 0 := by
  simp [detect_display_server, h, hd]

theorem detect_none (g : String → Option String) (h : (g "WAYLAND_DISPLAY").isSome = false)
    (hd : (g "DISPLAY").isSome = false) : detect_display_server g = -1 := by
  simp [detect_display_server, h, hd]

theorem copy_pipe_wayland (w : World) (h : (w.getenv "WAYLAND_DISPLAY").isSome = true) :
    copy_pipe w = popen w Helper.wl_copy := by
  simp [copy_pipe, detect_wayland _ h]

theorem copy_pipe_x11 (w : World) (h : (w.getenv "WAYLAND_DISPLAY").isSome = false)
    (hd : (w.getenv "DISPLAY").isSome = true) :
    copy_pipe w =
      if w.launches Helper.xclip_in then (some Helper.xclip_in, [Event.popen Helper.xclip_in true])
      else if w.launches Helper.xsel_in then
        (some Helper.xsel_in,
          [Event.popen Helper.xclip_in false, Event.popen Helper.xsel_in true])
      else (none, [Event.popen Helper.xclip_in false, Event.popen Helper.xsel_in false]) := by
  simp only [copy_pipe, detect_x11 _ h hd, popen]
  cases w.launches Helper.xclip_in <;> cases w.launches Helper.xsel_in <;> simp

theorem copy_pipe_none (w : World) (h : (w.getenv "WAYLAND_DISPLAY").isSome = false)
    (hd : (w.getenv "DISPLAY").isSome = false) : copy_pipe w = (none, []) := by
  simp [copy_pipe, detect_none _ h hd]

theorem paste_pipe_wayland (w : World) (h : (w.getenv "WAYLAND_DISPLAY").isSome = true) :
    paste_pipe w = popen w Helper.wl_paste := by
  simp [paste_pipe, detect_wayland _ h]

theorem paste_pipe_x11 (w : World) (h : (w.getenv "WAYLAND_DISPLAY").isSome = false)
    (hd : (w.getenv "DISPLAY").isSome = true) :
    paste_pipe w =
      if w.launches Helper.xclip_out then
        (some Helper.xclip_out, [Event.popen Helper.xclip_out true])
      else if w.launches Helper.xsel_out then
        (some Helper.xsel_out,
          [Event.popen Helper.xclip_out false, Event.popen Helper.xsel_out true])
      else (none, [Event.popen Helper.xclip_out false, Event.popen Helper.xsel_out false]) := by
  simp only [paste_pipe, detect_x11 _ h hd, popen]
  cases w.launches Helper.xclip_out <;> cases w.launches Helper.xsel_out <;> simp

theorem paste_pipe_none (w : World) (h : (w.getenv "WAYLAND_DISPLAY").isSome = false)
    (hd : (w.getenv "DISPLAY").isSome = false) : paste_pipe w = (none, []) := by
  simp [paste_pipe, detect_none _ h hd]

theorem writes_popen (tr : List Event) :
    (∀ e ∈ tr, ∃ h b, e = Event.popen h b) → writes tr = [] := by
  induction tr with
  | nil => intro _; rfl
  | cons e es ih =>
    intro hall
    obtain ⟨h, b, he⟩ := hall e (List.mem_cons_self e es)
    subst he
    simp only [writes]
    exact ih (fun e' he' => hall e' (List.mem_cons_of_mem _ he'))

theorem writes_append (tr1 tr2 : List Event) :
    writes (tr1 ++ tr2) = writes tr1 ++ writes tr2 := by
  induction tr1 with
  | nil => rfl
  | cons e es ih => cases e <;> simp [writes, ih]

theorem writes_copy_pipe (w : World) : writes (copy_pipe w).2 = [] := by
  apply writes_popen
  intro e he
  simp only [copy_pipe, popen] at he
  split at he
  · split at he <;> simp at he <;> exact ⟨_, _, he⟩
  · split at he
    · split at he
      · next heq =>
        split at heq <;> simp at heq
        obtain ⟨_, rfl⟩ := heq
        simp at he; exact ⟨_, _, he⟩
      · next heq =>
        split at heq <;> simp at heq
        subst heq
        split at he <;> simp at he <;> rcases he with he | he <;> exact ⟨_, _, he⟩
    · simp at he

theorem init_length : State.init.clipboard_internal.length = CLIPBOARD_SIZE := by
  simp [State.init]

theorem init_wf : State.init.WF := by
  refine ⟨by simp [State.init], by simp [State.init], ?_⟩
  simp only [State.init, List.mem_replicate, and_true]
  decide

theorem cstr_init : cstr State.init.clipboard_internal = [] := by
  have : State.init.clipboard_internal = NUL :: List.replicate (CLIPBOARD_SIZE - 1) NUL := by
    simp only [State.init]
    rw [← List.replicate_succ, CLIPBOARD_SIZE_succ]
  rw [this, cstr_cons_nul]

/-! ## The internal fallback of copy -/

theorem strncpy_store (dest src : List Byte) (n : Nat) (h : dest.length = n + 1) :
    (strncpy dest src n).bind (fun b => store b n NUL) =
      some ((cstr src).take n ++ List.replicate (n - (cstr src).length) NUL ++ [NUL]) := by
  have hlen : ((cstr src).take n ++ List.replicate (n - (cstr src).length) NUL).length = n := by
    simp only [List.length_append, List.length_take, List.length_replicate]; omega
  have hdrop : ∃ d, dest.drop n = [d] := by
    have : (dest.drop n).length = 1 := by simp [h]
    match hd : dest.drop n, this with
    | [d], _ => exact ⟨d, rfl⟩
  obtain ⟨d, hd⟩ := hdrop
  have hn : n ≤ dest.length := by omega
  simp only [strncpy, hn, if_true, Option.some_bind, store, hd]
  have hlt : n < ((cstr src).take n ++ List.replicate (n - (cstr src).length) NUL ++ [d]).length := by
    rw [List.length_append, hlen]; simp
  rw [if_pos hlt]
  congr 1
  rw [List.set_append_right _ _ (by rw [hlen]), hlen]
  simp

theorem stored_length (text : List Byte) : (stored text).length = CLIPBOARD_SIZE := by
  simp only [stored, List.length_append, List.length_take, List.length_replicate,
    List.length_singleton]
  have := CLIPBOARD_SIZE_succ
  omega

theorem nul_mem_stored (text : List Byte) : NUL ∈ stored text := by
  simp [stored]

theorem cstr_stored (text : List Byte) : cstr (stored text) = (cstr text).take (CLIPBOARD_SIZE - 1) := by
  have hno : ∀ b ∈ (cstr text).take (CLIPBOARD_SIZE - 1), b ≠ NUL :=
    fun b hb => cstr_no_nul text b (List.mem_of_mem_take hb)
  unfold stored
  cases hr : List.replicate (CLIPBOARD_SIZE - 1 - (cstr text).length) NUL with
  | nil => rw [List.append_nil]; exact cstr_append_nul _ [] hno
  | cons a r =>
    have ha : a = NUL := List.eq_of_mem_replicate (by rw [hr]; exact List.mem_cons_self a r)
    subst ha
    rw [List.append_assoc, List.cons_append]
    exact cstr_append_nul _ _ hno

theorem cstr_stored_hello : cstr (stored hello) = hello := by
  rw [cstr_stored, cstr_eq_self hello (by simp [hello, NUL])]
  exact List.take_of_length_le (by decide)

theorem copy_fallback (w : World) (text : List Byte) (st : State) (tr : List Event)
    (hp : copy_pipe w = (none, tr)) (hl : st.clipboard_internal.length = CLIPBOARD_SIZE) :
    copy_to_system_clipboard w text st =
      some ({ st with clipboard_internal := stored text }, tr) := by
  have h := strncpy_store st.clipboard_internal text (CLIPBOARD_SIZE - 1)
    (by rw [hl, CLIPBOARD_SIZE_succ])
  unfold copy_to_system_clipboard
  rw [hp]
  simp only [bind, pure] at h ⊢
  cases hs : strncpy st.clipboard_internal text (CLIPBOARD_SIZE - 1) with
  | none => rw [hs] at h; simp at h
  | some b =>
    rw [hs] at h
    simp only [Option.some_bind] at h ⊢
    rw [h]; rfl

theorem copy_launched (w : World) (text : List Byte) (st : State) (p : Helper)
    (tr : List Event) (hp : copy_pipe w = (some p, tr)) :
    copy_to_system_clipboard w text st =
      some (st, tr ++ [Event.fprintf p (cstr text) w.write_ok, Event.pclose p]) := by
  unfold copy_to_system_clipboard
  rw [hp]

theorem copy_total (w : World) (text : List Byte) (st : State) (hwf : st.WF) :
    ∃ st1 tr, copy_to_system_clipboard w text st = some (st1, tr) ∧ st1.WF := by
  cases hp : copy_pipe w with
  | mk o tr =>
    cases o with
    | some p => exact ⟨_, _, copy_launched w text st p tr hp, hwf⟩
    | none =>
      exact ⟨_, _, copy_fallback w text st tr hp hwf.1,
        stored_length text, hwf.2.1, nul_mem_stored text⟩

/-! ## Paste: the helper branch and the internal fallback -/

theorem paste_fallback_empty (st : State) (tr : List Event) (hn : NUL ∈ st.clipboard_internal)
    (he : cstr st.clipboard_internal = []) :
    paste_fallback st tr = some { state := st, trace := tr, ret := none } := by
  simp [paste_fallback, strlen_of_mem _ hn, he]

theorem paste_fallback_nonempty (st : State) (tr : List Event) (hwf : st.WF)
    (he : cstr st.clipboard_internal ≠ []) :
    paste_fallback st tr =
      some { state := { st with paste_buffer := cstr st.clipboard_internal ++ [NUL] ++
                          st.paste_buffer.drop ((cstr st.clipboard_internal).length + 1) }
             trace := tr
             ret := some (cstr st.clipboard_internal) } := by
  obtain ⟨hc, hp, hn⟩ := hwf
  have hlt := cstr_length_lt _ hn
  have hpos : 0 < (cstr st.clipboard_internal).length := List.length_pos.mpr he
  have hfit : (cstr st.clipboard_internal).length + 1 ≤ st.paste_buffer.length := by omega
  have hc2 : cstr (cstr st.clipboard_internal ++ [NUL] ++
      st.paste_buffer.drop ((cstr st.clipboard_internal).length + 1)) =
      cstr st.clipboard_internal := by
    rw [List.append_assoc, List.singleton_append]
    exact cstr_append_nul _ _ (cstr_no_nul _)
  simp only [paste_fallback, strlen_of_mem _ hn, strcpy, hn, hfit, and_self, if_true,
    bind, pure, Option.bind, hpos, gt_iff_lt, hc2]

theorem paste_no_helper (w : World) (st : State) (tr : List Event)
    (hp : paste_pipe w = (none, tr)) :
    paste_from_system_clipboard w st = paste_fallback st tr := by
  unfold paste_from_system_clipboard
  rw [hp]

/-- The image of `paste_buffer` after `fread` obtained `got` and the terminator was stored. -/
theorem fread_store (pb out : List Byte) (hl : pb.length = CLIPBOARD_SIZE) :
    (fread pb (CLIPBOARD_SIZE - 1) out).bind (fun r => (store r.1 r.2 NUL).map (fun b => (b, r.2))) =
      some (out.take (CLIPBOARD_SIZE - 1) ++ NUL ::
              pb.drop ((out.take (CLIPBOARD_SIZE - 1)).length + 1),
            (out.take (CLIPBOARD_SIZE - 1)).length) := by
  have hs := CLIPBOARD_SIZE_succ
  have hle : CLIPBOARD_SIZE - 1 ≤ pb.length := by omega
  have hk : (out.take (CLIPBOARD_SIZE - 1)).length ≤ CLIPBOARD_SIZE - 1 := by
    rw [List.length_take]; exact Nat.min_le_left _ _
  simp only [fread, hle, if_true, Option.some_bind, store, List.length_append,
    List.length_drop]
  generalize out.take (CLIPBOARD_SIZE - 1) = got at hk ⊢
  have hd : got.length < pb.length := by omega
  have hlt : got.length < got.length + (pb.length - got.length) := by omega
  rw [if_pos hlt]
  simp only [Option.map_some', Option.some.injEq, Prod.mk.injEq, and_true]
  rw [List.set_append_right _ _ (Nat.le_refl _), Nat.sub_self]
  congr 1
  cases hdr : pb.drop got.length with
  | nil =>
    have : (pb.drop got.length).length = 0 := by rw [hdr]; rfl
    rw [List.length_drop] at this; omega
  | cons a l =>
    have : l = (pb.drop got.length).drop 1 := by rw [hdr]; rfl
    rw [List.set_cons_zero, this, List.drop_drop]
    

theorem paste_launched (w : World) (st : State) (p : Helper) (tr : List Event)
    (hp : paste_pipe w = (some p, tr)) (hl : st.paste_buffer.length = CLIPBOARD_SIZE) :
    paste_from_system_clipboard w st =
      (if 0 < ((w.output p).take (CLIPBOARD_SIZE - 1)).length then
        some { state := { st with paste_buffer := (w.output p).take (CLIPBOARD_SIZE - 1) ++ NUL ::
                    st.paste_buffer.drop (((w.output p).take (CLIPBOARD_SIZE - 1)).length + 1) }
               trace := tr ++ [Event.fread p ((w.output p).take (CLIPBOARD_SIZE - 1)).length,
                               Event.pclose p]
               ret := some (cstr ((w.output p).take (CLIPBOARD_SIZE - 1))) }
      else
        paste_fallback
          { st with paste_buffer := (w.output p).take (CLIPBOARD_SIZE - 1) ++ NUL ::
                    st.paste_buffer.drop (((w.output p).take (CLIPBOARD_SIZE - 1)).length + 1) }
          (tr ++ [Event.fread p ((w.output p).take (CLIPBOARD_SIZE - 1)).length,
                  Event.pclose p])) := by
  have h := fread_store st.paste_buffer (w.output p) hl
  unfold paste_from_system_clipboard
  rw [hp]
  simp only [bind, pure] at h ⊢
  cases hf : fread st.paste_buffer (CLIPBOARD_SIZE - 1) (w.output p) with
  | none => rw [hf] at h; simp at h
  | some r =>
    rw [hf] at h
    simp only [Option.some_bind, Option.bind] at h ⊢
    cases hs : store r.1 r.2 NUL with
    | none => rw [hs] at h; simp at h
    | some b =>
      rw [hs] at h
      simp only [Option.map_some', Option.some.injEq, Prod.mk.injEq] at h
      obtain ⟨hb, hr⟩ := h
      subst hb
      simp only [hr, gt_iff_lt, cstr_append_nul_any]

theorem read_image_length (pb out : List Byte) (hl : pb.length = CLIPBOARD_SIZE) :
    (out.take (CLIPBOARD_SIZE - 1) ++ NUL ::
      pb.drop ((out.take (CLIPBOARD_SIZE - 1)).length + 1)).length = CLIPBOARD_SIZE := by
  have hs := CLIPBOARD_SIZE_succ
  have hk : (out.take (CLIPBOARD_SIZE - 1)).length ≤ CLIPBOARD_SIZE - 1 := by
    rw [List.length_take]; exact Nat.min_le_left _ _
  rw [List.length_append, List.length_cons, List.length_drop]
  omega

theorem paste_fallback_total (st : State) (tr : List Event) (hwf : st.WF) :
    ∃ r, paste_fallback st tr = some r ∧ r.state.WF ∧
      r.state.clipboard_internal = st.clipboard_internal ∧ r.trace = tr ∧
      r.ret = (if cstr st.clipboard_internal = [] then none
               else some (cstr st.clipboard_internal)) := by
  by_cases he : cstr st.clipboard_internal = []
  · exact ⟨_, paste_fallback_empty st tr hwf.2.2 he, hwf, rfl, rfl, by rw [if_pos he]⟩
  · refine ⟨_, paste_fallback_nonempty st tr hwf he, ⟨hwf.1, ?_, hwf.2.2⟩, rfl, rfl,
      by rw [if_neg he]⟩
    have hlt := cstr_length_lt _ hwf.2.2
    have h1 := hwf.1
    have h2 := hwf.2.1
    simp only [List.length_append, List.length_singleton, List.length_drop]
    omega

theorem paste_total (w : World) (st : State) (hwf : st.WF) :
    ∃ r, paste_from_system_clipboard w st = some r ∧ r.state.WF ∧
      r.state.clipboard_internal = st.clipboard_internal := by
  cases hp : paste_pipe w with
  | mk o tr =>
    cases o with
    | none =>
      rw [paste_no_helper w st tr hp]
      obtain ⟨r, h1, h2, h3, _⟩ := paste_fallback_total st tr hwf
      exact ⟨r, h1, h2, h3⟩
    | some p =>
      rw [paste_launched w st p tr hp hwf.2.1]
      have hwf1 : State.WF { st with paste_buffer := (w.output p).take (CLIPBOARD_SIZE - 1) ++
          NUL :: st.paste_buffer.drop (((w.output p).take (CLIPBOARD_SIZE - 1)).length + 1) } :=
        ⟨hwf.1, read_image_length _ _ hwf.2.1, hwf.2.2⟩
      split
      · exact ⟨_, rfl, hwf1, rfl⟩
      · obtain ⟨r, h1, h2, h3, _⟩ := paste_fallback_total _
          (tr ++ [Event.fread p ((w.output p).take (CLIPBOARD_SIZE - 1)).length,
                  Event.pclose p]) hwf1
        exact ⟨r, h1, h2, h3⟩

theorem take_pos_iff (out : List Byte) :
    0 < (out.take (CLIPBOARD_SIZE - 1)).length ↔ out ≠ [] := by
  cases out with
  | nil => simp
  | cons a l =>
    have : CLIPBOARD_SIZE - 1 = (CLIPBOARD_SIZE - 2) + 1 := by decide
    rw [this, List.take_succ_cons]
    simp

theorem head_take (out : List Byte) :
    (out.take (CLIPBOARD_SIZE - 1)).head? = out.head? := by
  cases out with
  | nil => simp
  | cons a l =>
    have : CLIPBOARD_SIZE - 1 = (CLIPBOARD_SIZE - 2) + 1 := by decide
    rw [this, List.take_succ_cons]
    rfl

/-- The value of a paste on a well-formed state, by cases on the stream selection. -/
theorem paste_ret (w : World) (st : State) (hwf : st.WF) :
    ∃ r, paste_from_system_clipboard w st = some r ∧
      r.state.clipboard_internal = st.clipboard_internal ∧
      r.ret = (match (paste_pipe w).1 with
        | some p =>
          if w.output p = [] then
            (if cstr st.clipboard_internal = [] then none
             else some (cstr st.clipboard_internal))
          else some (cstr ((w.output p).take (CLIPBOARD_SIZE - 1)))
        | none =>
          if cstr st.clipboard_internal = [] then none
          else some (cstr st.clipboard_internal)) := by
  cases hp : paste_pipe w with
  | mk o tr =>
    cases o with
    | none =>
      rw [paste_no_helper w st tr hp]
      obtain ⟨r, h1, _, h3, _, h5⟩ := paste_fallback_total st tr hwf
      exact ⟨r, h1, h3, h5⟩
    | some p =>
      rw [paste_launched w st p tr hp hwf.2.1]
      have hwf1 : State.WF { st with paste_buffer := (w.output p).take (CLIPBOARD_SIZE - 1) ++
          NUL :: st.paste_buffer.drop (((w.output p).take (CLIPBOARD_SIZE - 1)).length + 1) } :=
        ⟨hwf.1, read_image_length _ _ hwf.2.1, hwf.2.2⟩
      by_cases ho : w.output p = []
      · rw [if_neg (by rw [take_pos_iff]; exact not_not.mpr ho)]
        obtain ⟨r, h1, _, h3, _, h5⟩ := paste_fallback_total _
          (tr ++ [Event.fread p ((w.output p).take (CLIPBOARD_SIZE - 1)).length,
                  Event.pclose p]) hwf1
        exact ⟨r, h1, h3, by simp only [ho, if_true]; exact h5⟩
      · rw [if_pos ((take_pos_iff _).mpr ho)]
        exact ⟨_, rfl, rfl, by simp only [ho, if_false]⟩

/-! ## C1: copy then paste in internal-buffer mode -/

theorem roundtrip_internal (w1 w2 : World) (X : List Byte) (st : State)
    (hX : ∀ b ∈ X, b ≠ NUL)
    (h1 : copy_pipe w1 = (none, [])) (h2 : paste_pipe w2 = (none, []))
    (hc : st.clipboard_internal.length = CLIPBOARD_SIZE)
    (hp : st.paste_buffer.length = CLIPBOARD_SIZE) :
    ∃ st1 r, copy_to_system_clipboard w1 X st = some (st1, []) ∧
      paste_from_system_clipboard w2 st1 = some r ∧
      r.trace = [] ∧
      r.ret = (if X = [] then none else some (X.take (CLIPBOARD_SIZE - 1))) := by
  refine ⟨{ st with clipboard_internal := stored X }, ?_⟩
  have hcs : cstr (stored X) = X.take (CLIPBOARD_SIZE - 1) := by
    rw [cstr_stored, cstr_eq_self X hX]
  have hwf : State.WF { st with clipboard_internal := stored X } :=
    ⟨stored_length X, hp, nul_mem_stored X⟩
  by_cases hX0 : X = []
  · subst hX0
    rw [paste_no_helper w2 _ [] h2,
      paste_fallback_empty _ [] (nul_mem_stored _) (by rw [hcs]; rfl)]
    exact ⟨_, copy_fallback w1 [] st [] h1 hc, rfl, rfl, (if_pos rfl).symm⟩
  · have hne : cstr (stored X) ≠ [] := by
      rw [hcs]
      cases X with
      | nil => exact absurd rfl hX0
      | cons a l =>
        have : CLIPBOARD_SIZE - 1 = (CLIPBOARD_SIZE - 2) + 1 := by decide
        rw [this, List.take_succ_cons]
        exact List.cons_ne_nil _ _
    rw [paste_no_helper w2 _ [] h2, paste_fallback_nonempty _ [] hwf hne]
    exact ⟨_, copy_fallback w1 X st [] h1 hc, rfl, rfl, by simp only [hX0, if_false, hcs]⟩

/-- C1 fails for the empty text: after `copy("")` in internal-buffer mode `paste()` returns
`NULL` ("no value"), not the empty string. -/
theorem roundtrip_empty_text_returns_null :
    ∃ st1 r, copy_to_system_clipboard World.bare [] State.init = some (st1, []) ∧
      paste_from_system_clipboard World.bare st1 = some r ∧
      r.ret = none ∧
      r.ret ≠ some (([] : List Byte).take (CLIPBOARD_SIZE - 1)) := by
  obtain ⟨st1, r, h1, h2, _, h3⟩ := roundtrip_internal World.bare World.bare [] State.init
    (by simp) rfl rfl init_wf.1 init_wf.2.1
  simp only [if_true] at h3
  exact ⟨st1, r, h1, h2, h3, by rw [h3]; exact fun h => Option.noConfusion h⟩

/-- C1 (amended): in internal-buffer mode (neither `WAYLAND_DISPLAY` nor `DISPLAY` is set at
the copy or at the paste), for every text `X` without a NUL byte, `copy(X)` launches no
helper and the `paste()` that follows returns `X` cut to its first `CLIPBOARD_SIZE - 1`
bytes when `X` is not empty, and `NULL` when `X` is empty. -/
theorem copy_then_paste_internal (w1 w2 : World) (X : List Byte) (st : State)
    (hX : ∀ b ∈ X, b ≠ NUL)
    (hW1 : (w1.getenv "WAYLAND_DISPLAY").isSome = false)
    (hD1 : (w1.getenv "DISPLAY").isSome = false)
    (hW2 : (w2.getenv "WAYLAND_DISPLAY").isSome = false)
    (hD2 : (w2.getenv "DISPLAY").isSome = false)
    (hst : st.WF) :
    ∃ st1 r, copy_to_system_clipboard w1 X st = some (st1, []) ∧
      paste_from_system_clipboard w2 st1 = some r ∧
      r.trace = [] ∧
      r.ret = (if X = [] then none else some (X.take (CLIPBOARD_SIZE - 1))) := by
  exact roundtrip_internal w1 w2 X st hX
    (copy_pipe_none w1 hW1 hD1) (paste_pipe_none w2 hW2 hD2) hst.1 hst.2.1

/-- Witness for C1: `copy("hello")` then `paste()` returns `"hello"`. -/
theorem copy_then_paste_internal_witness :
    ∃ st1 r, copy_to_system_clipboard World.bare hello State.init = some (st1, []) ∧
      paste_from_system_clipboard World.bare st1 = some r ∧
      r.trace = [] ∧ r.ret = some hello := by
  obtain ⟨st1, r, h1, h2, h3, h4⟩ := copy_then_paste_internal World.bare World.bare hello
    State.init (by simp [hello, NUL]) rfl rfl rfl rfl init_wf
  have hne : hello ≠ [] := by unfold hello; exact List.cons_ne_nil _ _
  have hlen : hello.length ≤ CLIPBOARD_SIZE - 1 := by decide
  exact ⟨st1, r, h1, h2, h3, by rw [h4, if_neg hne, List.take_of_length_le hlen]⟩

/-! ## C2: the backend probe -/

/-- C2: `detect_display_server` depends only on whether `WAYLAND_DISPLAY` and `DISPLAY`
are set: two environments that agree on the presence of both give the same result; the
result is 1 exactly when `WAYLAND_DISPLAY` is set (whether or not `DISPLAY` is), 0 exactly
when `WAYLAND_DISPLAY` is unset and `DISPLAY` is set, -1 exactly when both are unset, and
it is always one of the three. -/
theorem detect_display_server_policy (g g2 : String → Option String)
    (hW : (g "WAYLAND_DISPLAY").isSome = (g2 "WAYLAND_DISPLAY").isSome)
    (hD : (g "DISPLAY").isSome = (g2 "DISPLAY").isSome) :
    detect_display_server g = detect_display_server g2 ∧
    (detect_display_server g = 1 ↔ (g "WAYLAND_DISPLAY").isSome = true) ∧
    (detect_display_server g = 0 ↔
      (g "WAYLAND_DISPLAY").isSome = false ∧ (g "DISPLAY").isSome = true) ∧
    (detect_display_server g = -1 ↔
      (g "WAYLAND_DISPLAY").isSome = false ∧ (g "DISPLAY").isSome = false) ∧
    (detect_display_server g = 1 ∨ detect_display_server g = 0 ∨
      detect_display_server g = -1) := by
  refine ⟨by simp only [detect_display_server, hW, hD], ?_, ?_, ?_, ?_⟩ <;>
    simp only [detect_display_server] <;>
    cases (g "WAYLAND_DISPLAY").isSome <;> cases (g "DISPLAY").isSome <;> simp

/-- Witness for C2: with both variables set, whatever their values, Wayland is selected. -/
theorem detect_display_server_policy_witness :
    detect_display_server (env_of true true) = detect_display_server (fun _ => some "x") ∧
    detect_display_server (env_of true true) = 1 :=
  have h := detect_display_server_policy (env_of true true) (fun _ => some "x") rfl rfl
  ⟨h.1, h.2.1.mpr rfl⟩

/-! ## C3: overflow of the internal copy -/

theorem stored_of_long (X : List Byte) (hX : ∀ b ∈ X, b ≠ NUL)
    (hlen : CLIPBOARD_SIZE ≤ X.length) : stored X = X.take (CLIPBOARD_SIZE - 1) ++ [NUL] := by
  have h0 : CLIPBOARD_SIZE - 1 - X.length = 0 := by omega
  rw [stored, cstr_eq_self X hX, h0, List.replicate_zero, List.append_nil]

/-- C3: for every text `X` without a NUL byte and with at least `CLIPBOARD_SIZE` bytes, when
no helper is launched the copy completes with every store inside the array, and
`clipboard_internal` then is the first `CLIPBOARD_SIZE - 1` bytes of `X` followed by one
NUL: it still has `CLIPBOARD_SIZE` bytes, byte `i` is `X[i]` for `i < CLIPBOARD_SIZE - 1`
and byte `CLIPBOARD_SIZE - 1` is NUL; `paste_buffer` is untouched. -/
theorem copy_overflow_truncates (w : World) (X : List Byte) (st : State)
    (hX : ∀ b ∈ X, b ≠ NUL) (hlen : CLIPBOARD_SIZE ≤ X.length)
    (hpipe : (copy_pipe w).1 = none)
    (hc : st.clipboard_internal.length = CLIPBOARD_SIZE) :
    ∃ st1 tr, copy_to_system_clipboard w X st = some (st1, tr) ∧
      st1.clipboard_internal = X.take (CLIPBOARD_SIZE - 1) ++ [NUL] ∧
      st1.clipboard_internal.length = CLIPBOARD_SIZE ∧
      (∀ i, i < CLIPBOARD_SIZE - 1 → st1.clipboard_internal[i]? = X[i]?) ∧
      st1.clipboard_internal[CLIPBOARD_SIZE - 1]? = some NUL ∧
      st1.paste_buffer = st.paste_buffer := by
  have hp : copy_pipe w = (none, (copy_pipe w).2) := Prod.ext hpipe rfl
  have hs := stored_of_long X hX hlen
  have htl : (X.take (CLIPBOARD_SIZE - 1)).length = CLIPBOARD_SIZE - 1 := by
    rw [List.length_take]; omega
  refine ⟨_, _, copy_fallback w X st _ hp hc, hs, stored_length X, ?_, ?_, rfl⟩
  · intro i hi
    show (stored X)[i]? = X[i]?
    rw [hs, List.getElem?_append_left (by rw [htl]; exact hi), List.getElem?_take_of_lt hi]
  · show (stored X)[CLIPBOARD_SIZE - 1]? = some NUL
    rw [hs, List.getElem?_append_right (by rw [htl]), htl, Nat.sub_self]
    rfl

/-- Witness for C3: a text of 8200 bytes `'A'` copied into the initial state. -/
theorem copy_overflow_truncates_witness :
    ∃ st1 tr, copy_to_system_clipboard World.bare (List.replicate 8200 65) State.init =
        some (st1, tr) ∧
      st1.clipboard_internal = (List.replicate 8200 65).take (CLIPBOARD_SIZE - 1) ++ [NUL] ∧
      st1.clipboard_internal.length = CLIPBOARD_SIZE ∧
      (∀ i, i < CLIPBOARD_SIZE - 1 →
        st1.clipboard_internal[i]? = (List.replicate 8200 (65 : Byte))[i]?) ∧
      st1.clipboard_internal[CLIPBOARD_SIZE - 1]? = some NUL ∧
      st1.paste_buffer = State.init.paste_buffer :=
  copy_overflow_truncates World.bare (List.replicate 8200 65) State.init
    (fun b hb => by rw [List.eq_of_mem_replicate hb]; decide)
    (by rw [List.length_replicate]; decide) rfl init_length

/-! ## C4: the invariant of `clipboard_internal` -/

theorem step_total (st : State) (c : World × Call) (hwf : st.WF) :
    ∃ st1, step st c = some st1 ∧ st1.WF := by
  obtain ⟨w, call⟩ := c
  cases call with
  | copy text =>
    obtain ⟨st1, tr, h, hw⟩ := copy_total w text st hwf
    exact ⟨st1, by simp [step, h], hw⟩
  | paste =>
    obtain ⟨r, h, hw, _⟩ := paste_total w st hwf
    exact ⟨r.state, by simp [step, h], hw⟩

theorem run_total (calls : List (World × Call)) :
    ∀ st : State, st.WF → ∃ st1, run st calls = some st1 ∧ st1.WF := by
  induction calls with
  | nil => intro st hwf; exact ⟨st, rfl, hwf⟩
  | cons c cs ih =>
    intro st hwf
    obtain ⟨st1, h1, hw1⟩ := step_total st c hwf
    obtain ⟨st2, h2, hw2⟩ := ih st1 hw1
    exact ⟨st2, by simp [run, h1, h2], hw2⟩

/-- C4: from the initial all-zero state, every sequence of copy and paste calls, with any
texts and in any worlds (environment, launch outcomes, helper output), runs to completion
and leaves `clipboard_internal` with its `CLIPBOARD_SIZE` bytes and a NUL among them, so
that the string it holds has at most `CLIPBOARD_SIZE - 1` bytes. -/
theorem clipboard_internal_terminated (calls : List (World × Call)) :
    ∃ st, run State.init calls = some st ∧
      st.clipboard_internal.length = CLIPBOARD_SIZE ∧
      NUL ∈ st.clipboard_internal ∧
      ∃ n, strlen st.clipboard_internal = some n ∧ n ≤ CLIPBOARD_SIZE - 1 := by
  obtain ⟨st, h, hwf⟩ := run_total calls State.init init_wf
  refine ⟨st, h, hwf.1, hwf.2.2, _, strlen_of_mem _ hwf.2.2, ?_⟩
  have := cstr_length_lt _ hwf.2.2
  have := hwf.1
  omega

/-! ## C5: what paste returns -/

/-- C5 fails when the helper's output begins with a NUL byte: on Wayland with `wl-paste`
launched and delivering the single byte NUL, `paste()` returns a pointer to the empty
string, which is neither the one byte read nor `NULL`. -/
theorem paste_returns_empty_string :
    (World.of true false (fun _ => true) [NUL]).output Helper.wl_paste = [NUL] ∧
    (paste_pipe (World.of true false (fun _ => true) [NUL])).1 = some Helper.wl_paste ∧
    ∃ r, paste_from_system_clipboard (World.of true false (fun _ => true) [NUL]) State.init =
        some r ∧
      r.ret = some [] ∧
      r.ret ≠ some ([NUL].take (min 1 (CLIPBOARD_SIZE - 1))) := by
  refine ⟨rfl, rfl, ?_⟩
  obtain ⟨r, h1, _, h3⟩ := paste_ret (World.of true false (fun _ => true) [NUL]) State.init
    init_wf
  have hp : (paste_pipe (World.of true false (fun _ => true) [NUL])).1 = some Helper.wl_paste :=
    rfl
  have ho : (World.of true false (fun _ => true) [NUL]).output Helper.wl_paste = [NUL] := rfl
  rw [hp] at h3
  simp only [ho] at h3
  have ht : ([NUL] : List Byte).take (CLIPBOARD_SIZE - 1) = [NUL] :=
    List.take_of_length_le (by decide)
  rw [if_neg (List.cons_ne_nil _ _), ht, cstr_cons_nul] at h3
  refine ⟨r, h1, h3, ?_⟩
  rw [h3]
  have hm : min 1 (CLIPBOARD_SIZE - 1) = 1 := by decide
  rw [hm]
  intro h
  have := Option.some.inj h
  exact absurd this (by simp)

/-- C5 (amended): on a well-formed state paste always completes, and
* if a helper is launched and delivers at least one byte, the result is the C string at
  the start of the first `CLIPBOARD_SIZE - 1` bytes read, that is, those bytes up to their
  first NUL, and all of them when none is NUL;
* if no helper could be launched, or the launched helper delivered nothing, the result is
  the string in `clipboard_internal` when it is not empty and `NULL` when it is;
* the result is the empty string exactly when a helper was launched and its output begins
  with a NUL byte. -/
theorem paste_characterised (w : World) (st : State) (hwf : st.WF) :
    ∃ r, paste_from_system_clipboard w st = some r ∧
      (∀ p, (paste_pipe w).1 = some p → w.output p ≠ [] →
        r.ret = some (cstr ((w.output p).take (CLIPBOARD_SIZE - 1))) ∧
        ((w.output p).take (CLIPBOARD_SIZE - 1)).length =
          min (CLIPBOARD_SIZE - 1) (w.output p).length ∧
        ((∀ b ∈ (w.output p).take (CLIPBOARD_SIZE - 1), b ≠ NUL) →
          r.ret = some ((w.output p).take (CLIPBOARD_SIZE - 1)))) ∧
      (((paste_pipe w).1 = none ∨ ∃ p, (paste_pipe w).1 = some p ∧ w.output p = []) →
        r.ret = (if cstr st.clipboard_internal = [] then none
                 else some (cstr st.clipboard_internal))) ∧
      (r.ret = some [] ↔
        ∃ p, (paste_pipe w).1 = some p ∧ (w.output p).head? = some NUL) := by
  obtain ⟨r, h1, _, h3⟩ := paste_ret w st hwf
  have hfb : (if cstr st.clipboard_internal = [] then none
      else some (cstr st.clipboard_internal)) ≠ some ([] : List Byte) := by
    split
    · exact fun h => Option.noConfusion h
    · next hne => exact fun h => hne (Option.some.inj h)
  refine ⟨r, h1, ?_, ?_, ?_⟩
  · intro p hp ho
    rw [hp] at h3
    simp only [ho, if_false] at h3
    refine ⟨h3, List.length_take _ _, fun hno => ?_⟩
    rw [h3, cstr_eq_self _ hno]
  · rintro (hp | ⟨p, hp, ho⟩)
    · rw [hp] at h3; exact h3
    · rw [hp] at h3; simp only [ho, if_true] at h3; exact h3
  · cases hp : (paste_pipe w).1 with
    | none =>
      rw [hp] at h3
      constructor
      · intro h; rw [h3] at h; exact absurd h hfb
      · rintro ⟨p, hp', _⟩; exact Option.noConfusion hp'
    | some p =>
      rw [hp] at h3
      by_cases ho : w.output p = []
      · simp only [ho, if_true] at h3
        constructor
        · intro h; rw [h3] at h; exact absurd h hfb
        · rintro ⟨q, hq, hh⟩
          have hqp : q = p := (Option.some.inj hq).symm
          subst hqp
          rw [ho] at hh
          exact Option.noConfusion hh
      · simp only [ho, if_false] at h3
        have hne : (w.output p).take (CLIPBOARD_SIZE - 1) ≠ [] := by
          intro h
          have := (take_pos_iff (w.output p)).mpr ho
          rw [h] at this
          exact Nat.lt_irrefl _ this
        rw [h3]
        constructor
        · intro h
          have hc := Option.some.inj h
          exact ⟨p, rfl, by rw [← head_take]; exact (cstr_eq_nil_iff _ hne).mp hc⟩
        · rintro ⟨q, hq, hh⟩
          have hqp : q = p := (Option.some.inj hq).symm
          subst hqp
          rw [← head_take] at hh
          rw [(cstr_eq_nil_iff _ hne).mpr hh]

/-- Witness for C5: with the internal buffer untouched since process start and no session,
`paste()` returns `NULL`. -/
theorem paste_characterised_witness :
    ∃ r, paste_from_system_clipboard World.bare State.init = some r ∧ r.ret = none := by
  obtain ⟨r, h1, _, h3, _⟩ := paste_characterised World.bare State.init init_wf
  refine ⟨r, h1, ?_⟩
  rw [h3 (Or.inl rfl), if_pos cstr_init]

/-! ## C6: the fallback chain of copy -/

/-- C6: for every world and text, on a state whose `clipboard_internal` has its declared
size, copy completes (it has no error result), and
* on Wayland it calls `popen` on `wl-copy` only; on X11 on `xclip`, and on `xsel` after it
  only when `xclip` did not launch; without a session on nothing;
* at most one helper launches, the text is written to it and to no other;
* when none launched (no session, or every attempt failed) the text is stored in
  `clipboard_internal`, cut to `CLIPBOARD_SIZE - 1` bytes; when one launched the state is
  left as it was. -/
theorem copy_fallback_chain (w : World) (text : List Byte) (st : State)
    (hc : st.clipboard_internal.length = CLIPBOARD_SIZE) :
    ∃ st1 tr, copy_to_system_clipboard w text st = some (st1, tr) ∧
      ((w.getenv "WAYLAND_DISPLAY").isSome = true → attempts tr = [Helper.wl_copy]) ∧
      ((w.getenv "WAYLAND_DISPLAY").isSome = false → (w.getenv "DISPLAY").isSome = true →
        attempts tr = (if w.launches Helper.xclip_in then [Helper.xclip_in]
                       else [Helper.xclip_in, Helper.xsel_in])) ∧
      ((w.getenv "WAYLAND_DISPLAY").isSome = false → (w.getenv "DISPLAY").isSome = false →
        attempts tr = []) ∧
      launched tr = (attempts tr).filter w.launches ∧
      writes tr = (launched tr).map (fun h => (h, cstr text)) ∧
      (launched tr).length ≤ 1 ∧
      (launched tr = [] ↔ (detect_display_server w.getenv = -1 ∨
        ∀ h ∈ attempts tr, w.launches h = false)) ∧
      (launched tr = [] →
        st1 = { st with clipboard_internal := stored text } ∧
        cstr st1.clipboard_internal = (cstr text).take (CLIPBOARD_SIZE - 1)) ∧
      (launched tr ≠ [] → st1 = st) := by
  cases hW : (w.getenv "WAYLAND_DISPLAY").isSome with
  | true =>
    have hp := copy_pipe_wayland w hW
    have hdet := detect_wayland _ hW
    cases hl : w.launches Helper.wl_copy with
    | true =>
      simp only [popen, hl, if_true] at hp
      refine ⟨_, _, copy_launched w text st _ _ hp, ?_⟩
      simp [attempts, launched, writes, hl, hdet]
    | false =>
      simp only [popen, hl] at hp
      refine ⟨_, _, copy_fallback w text st _ hp hc, ?_⟩
      simp [attempts, launched, writes, hl, hdet, cstr_stored]
  | false =>
    cases hD : (w.getenv "DISPLAY").isSome with
    | false =>
      have hp := copy_pipe_none w hW hD
      have hdet := detect_none _ hW hD
      refine ⟨_, _, copy_fallback w text st _ hp hc, ?_⟩
      simp [attempts, launched, writes, hdet, cstr_stored]
    | true =>
      have hp := copy_pipe_x11 w hW hD
      have hdet := detect_x11 _ hW hD
      cases hx : w.launches Helper.xclip_in with
      | true =>
        simp only [hx, if_true] at hp
        refine ⟨_, _, copy_launched w text st _ _ hp, ?_⟩
        simp [attempts, launched, writes, hx, hdet]
      | false =>
        cases hs : w.launches Helper.xsel_in with
        | true =>
          simp only [hx, hs, if_true] at hp
          refine ⟨_, _, copy_launched w text st _ _ hp, ?_⟩
          simp [attempts, launched, writes, hx, hs, hdet]
        | false =>
          simp only [hx, hs] at hp
          refine ⟨_, _, copy_fallback w text st _ hp hc, ?_⟩
          simp [attempts, launched, writes, hx, hs, hdet, cstr_stored]

/-- Witness for C6: on X11 with `xclip` failing to launch and `xsel` launching, `hello` goes
to `xsel` after both were tried, and the state is left as it was. -/
theorem copy_fallback_chain_witness :
    ∃ st1 tr, copy_to_system_clipboard
        (World.of false true (fun h => decide (h = Helper.xsel_in)) []) hello State.init =
        some (st1, tr) ∧
      attempts tr = [Helper.xclip_in, Helper.xsel_in] ∧
      launched tr = [Helper.xsel_in] ∧
      writes tr = [(Helper.xsel_in, hello)] ∧
      st1 = State.init := by
  obtain ⟨st1, tr, h, _, ha, _, hl, hw, _, _, _, hs⟩ := copy_fallback_chain
    (World.of false true (fun h => decide (h = Helper.xsel_in)) []) hello State.init init_length
  have ha' : attempts tr = [Helper.xclip_in, Helper.xsel_in] := ha rfl rfl
  have hl' : launched tr = [Helper.xsel_in] := by rw [hl, ha']; rfl
  have hh : cstr hello = hello := cstr_eq_self hello (by simp [hello, NUL])
  refine ⟨st1, tr, h, ha', hl', ?_, hs (by rw [hl']; exact List.cons_ne_nil _ _)⟩
  rw [hw, hl', hh]; rfl

/-! ## C7: a helper that starts and then fails -/

theorem stored_hello_ne_init : stored hello ≠ State.init.clipboard_internal := by
  intro h
  have h1 := congrArg cstr h
  rw [cstr_stored_hello, cstr_init] at h1
  exact absurd h1 (by unfold hello; exact List.cons_ne_nil _ _)

/-- C7 fails in both halves. Copy: on X11 with `xclip` launched and the write to it
failing, copy leaves the initial state as it is, whereas with no helper launching the same
copy stores the text in `clipboard_internal`. Paste: on Wayland with `wl-paste` launched
and the read failing after the one byte `a`, paste returns `"a"`, whereas with no helper
launching it returns `NULL`. -/
theorem copy_write_failure_differs_from_launch_failure :
    (World.write_fails.write_ok = false ∧
      (copy_pipe World.write_fails).1 = some Helper.xclip_in ∧
      (copy_pipe (World.of false true (fun _ => false) [])).1 = none ∧
      ∃ a b, copy_to_system_clipboard World.write_fails hello State.init = some a ∧
        copy_to_system_clipboard (World.of false true (fun _ => false) []) hello State.init =
          some b ∧
        a.1 = State.init ∧
        b.1.clipboard_internal = stored hello ∧
        a.1 ≠ b.1) ∧
    ((paste_pipe (World.of true false (fun _ => true) [97])).1 = some Helper.wl_paste ∧
      (World.of true false (fun _ => true) [97]).output Helper.wl_paste = [97] ∧
      (paste_pipe (World.of true false (fun _ => false) [97])).1 = none ∧
      ∃ r r', paste_from_system_clipboard (World.of true false (fun _ => true) [97])
          State.init = some r ∧
        paste_from_system_clipboard (World.of true false (fun _ => false) [97])
          State.init = some r' ∧
        r.ret = some [97] ∧
        r'.ret = none ∧
        r.ret ≠ r'.ret) := by
  constructor
  · refine ⟨rfl, rfl, rfl, _, _,
      copy_launched World.write_fails hello State.init Helper.xclip_in
        [Event.popen Helper.xclip_in true] rfl,
      copy_fallback (World.of false true (fun _ => false) []) hello State.init
        [Event.popen Helper.xclip_in false, Event.popen Helper.xsel_in false] rfl init_length,
      rfl, rfl, ?_⟩
    intro h
    exact stored_hello_ne_init (congrArg State.clipboard_internal h).symm
  · obtain ⟨r, h1, _, h3⟩ := paste_ret (World.of true false (fun _ => true) [97]) State.init
      init_wf
    obtain ⟨r', h1', _, h3'⟩ := paste_ret (World.of true false (fun _ => false) [97])
      State.init init_wf
    have hq : (paste_pipe (World.of true false (fun _ => true) [97])).1 =
        some Helper.wl_paste := rfl
    have hq' : (paste_pipe (World.of true false (fun _ => false) [97])).1 = none := rfl
    have ho : (World.of true false (fun _ => true) [97]).output Helper.wl_paste = [97] := rfl
    have ht : ([97] : List Byte).take (CLIPBOARD_SIZE - 1) = [97] :=
      List.take_of_length_le (by decide)
    have hc : cstr ([97] : List Byte) = [97] := cstr_eq_self [97] (by simp [NUL])
    rw [hq] at h3
    rw [hq'] at h3'
    simp only [ho] at h3
    rw [if_neg (List.cons_ne_nil _ _), ht, hc] at h3
    rw [if_pos cstr_init] at h3'
    refine ⟨hq, ho, hq', r, r', h1, h1', h3, h3', ?_⟩
    rw [h3, h3']
    exact fun h => Option.noConfusion h

/-- C7 (amended): when the copy helper starts, copy writes the text to it and leaves the
state as it was whether the write goes through or fails (a failed write is not noticed and
the text is not stored in `clipboard_internal`); when the paste helper starts and delivers
no byte at all, be it by end of file or by a read that fails at once, paste returns what it
returns when no helper could be launched, and `clipboard_internal` is the same in both
cases; when the paste helper starts and delivers at least one byte before end of file or a
read error, paste returns the string at the start of the bytes read (a read that fails
after some bytes is not noticed) and leaves `clipboard_internal` as it was. -/
theorem helper_failure_handling (w w' : World) (text : List Byte) (st : State)
    (hwf : st.WF) :
    (∀ p, (copy_pipe w).1 = some p → ∀ ok : Bool,
      ∃ tr, copy_to_system_clipboard { w with write_ok := ok } text st = some (st, tr) ∧
        writes tr = [(p, cstr text)]) ∧
    (∀ p, (paste_pipe w).1 = some p → w.output p = [] → (paste_pipe w').1 = none →
      ∃ r r', paste_from_system_clipboard w st = some r ∧
        paste_from_system_clipboard w' st = some r' ∧
        r.ret = r'.ret ∧
        r.state.clipboard_internal = r'.state.clipboard_internal) ∧
    (∀ p, (paste_pipe w).1 = some p → w.output p ≠ [] →
      ∃ r, paste_from_system_clipboard w st = some r ∧
        r.ret = some (cstr ((w.output p).take (CLIPBOARD_SIZE - 1))) ∧
        r.state.clipboard_internal = st.clipboard_internal) := by
  refine ⟨?_, ?_, ?_⟩
  · intro p hp ok
    have hp' : copy_pipe { w with write_ok := ok } = (some p, (copy_pipe w).2) :=
      Prod.ext hp rfl
    refine ⟨_, copy_launched _ text st p _ hp', ?_⟩
    rw [writes_append, writes_copy_pipe]
    rfl
  · intro p hp ho hp'
    obtain ⟨r, h1, h2, h3⟩ := paste_ret w st hwf
    obtain ⟨r', h1', h2', h3'⟩ := paste_ret w' st hwf
    refine ⟨r, r', h1, h1', ?_, by rw [h2, h2']⟩
    rw [hp] at h3
    rw [hp'] at h3'
    simp only [ho, if_true] at h3
    rw [h3, h3']
  · intro p hp ho
    obtain ⟨r, h1, h2, h3⟩ := paste_ret w st hwf
    rw [hp] at h3
    simp only [ho, if_false] at h3
    exact ⟨r, h1, h3, h2⟩

/-- Witness for C7: on the initial state, `xclip` starts and the write to it fails; `xclip
-o` starts and delivers nothing; `xclip -o` starts and delivers the one byte `a`. -/
theorem helper_failure_handling_witness :
    (∃ tr, copy_to_system_clipboard
        { World.of false true (fun _ => true) [] with write_ok := false } hello State.init =
        some (State.init, tr) ∧
      writes tr = [(Helper.xclip_in, cstr hello)]) ∧
    (∃ r r', paste_from_system_clipboard (World.of false true (fun _ => true) []) State.init =
        some r ∧
      paste_from_system_clipboard World.bare State.init = some r' ∧
      r.ret = r'.ret ∧
      r.state.clipboard_internal = r'.state.clipboard_internal) ∧
    (∃ r, paste_from_system_clipboard (World.of false true (fun _ => true) [97]) State.init =
        some r ∧
      r.ret = some (cstr (([97] : List Byte).take (CLIPBOARD_SIZE - 1))) ∧
      r.state.clipboard_internal = State.init.clipboard_internal) :=
  have h := helper_failure_handling (World.of false true (fun _ => true) []) World.bare hello
    State.init init_wf
  have h' := helper_failure_handling (World.of false true (fun _ => true) [97]) World.bare
    hello State.init init_wf
  ⟨h.1 Helper.xclip_in rfl false, h.2.1 Helper.xclip_out rfl rfl rfl,
    h'.2.2 Helper.xclip_out rfl (List.cons_ne_nil _ _)⟩

/-! ## C8: repeated pastes -/

theorem pastes_internal (ws : List World) :
    ∀ st : State, st.WF → (∀ w ∈ ws, (paste_pipe w).1 = none) →
      pastes st ws = some (List.replicate ws.length
        (if cstr st.clipboard_internal = [] then none
         else some (cstr st.clipboard_internal))) := by
  induction ws with
  | nil => intro st _ _; rfl
  | cons w ws ih =>
    intro st hwf hws
    have hp : paste_pipe w = (none, (paste_pipe w).2) :=
      Prod.ext (hws w (List.mem_cons_self w ws)) rfl
    obtain ⟨r, h1, h2, h3, _, h5⟩ := paste_fallback_total st (paste_pipe w).2 hwf
    rw [← paste_no_helper w st _ hp] at h1
    have hrest := ih r.state h2 (fun w' hw' => hws w' (List.mem_cons_of_mem w hw'))
    rw [h3] at hrest
    simp only [pastes, h1, Option.some_bind, hrest, Option.map_some', h5, List.length_cons,
      List.replicate_succ]

/-- C8: in internal-buffer mode (no helper launched), on every well-formed state a paste
leaves `clipboard_internal` as it was, and any number of pastes made one after the other
all return the same value: the string in `clipboard_internal` each time, or `NULL` each
time when that string is empty. -/
theorem paste_idempotent (st : State) (ws : List World) (hwf : st.WF)
    (hws : ∀ w ∈ ws, (paste_pipe w).1 = none) :
    (∀ w ∈ ws, ∃ r, paste_from_system_clipboard w st = some r ∧
      r.state.clipboard_internal = st.clipboard_internal) ∧
    ∃ v, pastes st ws = some (List.replicate ws.length v) ∧
      v = (if cstr st.clipboard_internal = [] then none
           else some (cstr st.clipboard_internal)) := by
  constructor
  · intro w _
    obtain ⟨r, h1, _, h3⟩ := paste_total w st hwf
    exact ⟨r, h1, h3⟩
  · exact ⟨_, pastes_internal ws st hwf hws, rfl⟩

/-- Witness for C8: three pastes without a session on a buffer that holds `hello`. -/
theorem paste_idempotent_witness :
    pastes { clipboard_internal := stored hello, paste_buffer := State.init.paste_buffer }
      [World.bare, World.bare, World.bare] = some [some hello, some hello, some hello] := by
  obtain ⟨_, v, h, hv⟩ := paste_idempotent
    { clipboard_internal := stored hello, paste_buffer := State.init.paste_buffer }
    [World.bare, World.bare, World.bare]
    ⟨stored_length hello, init_wf.2.1, nul_mem_stored hello⟩
    (fun w hw => by
      simp only [List.mem_cons, List.mem_singleton, List.not_mem_nil, or_false, or_self] at hw
      subst hw; rfl)
  have hne : hello ≠ [] := by unfold hello; exact List.cons_ne_nil _ _
  rw [cstr_stored_hello, if_neg hne] at hv
  rw [h, hv]; rfl

/-! ## C9: the shortcut dispatcher -/

theorem ctrl_shift_testBit (event : GdkEventKey) :
    ctrl_shift event = true ↔ event.state.testBit 2 = true ∧ event.state.testBit 0 = true := by
  have h5 : GDK_CONTROL_MASK ||| GDK_SHIFT_MASK = 5 := by decide
  simp only [ctrl_shift, h5, beq_iff_eq]
  constructor
  · intro h
    have h2 := congrArg (fun n => Nat.testBit n 2) h
    have h0 := congrArg (fun n => Nat.testBit n 0) h
    simp only [Nat.testBit_and] at h2 h0
    have e2 : Nat.testBit 5 2 = true := by decide
    have e0 : Nat.testBit 5 0 = true := by decide
    rw [e2] at h2
    rw [e0] at h0
    simp only [Bool.and_true] at h2 h0
    exact ⟨h2, h0⟩
  · rintro ⟨h2, h0⟩
    apply Nat.eq_of_testBit_eq
    intro i
    rw [Nat.testBit_and]
    match i with
    | 0 => rw [h0]; rfl
    | 1 =>
      have : Nat.testBit 5 1 = false := by decide
      rw [this, Bool.and_false]
    | 2 => rw [h2]; rfl
    | (j + 3) =>
      have : Nat.testBit 5 (j + 3) = false := by
        apply Nat.testBit_lt_two_pow
        have : 2 ^ 3 ≤ 2 ^ (j + 3) := Nat.pow_le_pow_right (by decide) (by omega)
        omega
      rw [this, Bool.and_false]

theorem mask_bit (n i : Nat) : n &&& 2 ^ i = 2 ^ i ↔ n.testBit i = true := by
  constructor
  · intro h
    have hi := congrArg (fun m => Nat.testBit m i) h
    simp only [Nat.testBit_and, Nat.testBit_two_pow_self, Bool.and_true] at hi
    exact hi
  · intro h
    apply Nat.eq_of_testBit_eq
    intro j
    rw [Nat.testBit_and, Nat.testBit_two_pow]
    by_cases hj : i = j
    · subst hj; simp [h]
    · simp [hj]

theorem ctrl_shift_iff (event : GdkEventKey) :
    ctrl_shift event = true ↔
      event.state &&& GDK_CONTROL_MASK = GDK_CONTROL_MASK ∧
      event.state &&& GDK_SHIFT_MASK = GDK_SHIFT_MASK := by
  have hc : GDK_CONTROL_MASK = 2 ^ 2 := by decide
  have hs : GDK_SHIFT_MASK = 2 ^ 0 := by decide
  rw [ctrl_shift_testBit, hc, hs, mask_bit, mask_bit]

theorem on_key_press_total (w : World) (term : Terminal) (event : GdkEventKey) (st : State)
    (hwf : st.WF) :
    ∃ r, on_key_press w term event st = some r ∧
      (r.consumed = (ctrl_shift event &&
        (event.keyval == GDK_KEY_C || event.keyval == GDK_KEY_V ||
          event.keyval == GDK_KEY_Q))) ∧
      (r.consumed = false → r.state = st ∧ r.trace = []) := by
  unfold on_key_press
  cases hcs : ctrl_shift event with
  | false => exact ⟨_, rfl, rfl, fun _ => ⟨rfl, rfl⟩⟩
  | true =>
    simp only [Bool.true_and]
    cases hC : event.keyval == GDK_KEY_C with
    | true =>
      simp only [if_true, Bool.true_or]
      cases term.has_selection with
      | false => exact ⟨_, rfl, rfl, fun h => Bool.noConfusion h⟩
      | true =>
        simp only [if_true]
        cases term.text_selected with
        | none => exact ⟨_, rfl, rfl, fun h => Bool.noConfusion h⟩
        | some selection =>
          obtain ⟨st1, tr, h, _⟩ := copy_total w selection st hwf
          simp only [h, bind, pure, Option.bind]
          exact ⟨_, rfl, rfl, fun h => Bool.noConfusion h⟩
    | false =>
      simp only [Bool.false_or]
      cases hV : event.keyval == GDK_KEY_V with
      | true =>
        obtain ⟨r, h, _⟩ := paste_total w st hwf
        simp only [h, bind, pure, Option.bind, if_true, Bool.true_or]
        exact ⟨_, rfl, rfl, fun h => Bool.noConfusion h⟩
      | false =>
        simp only [Bool.false_or]
        cases hQ : event.keyval == GDK_KEY_Q with
        | true => exact ⟨_, rfl, rfl, fun h => Bool.noConfusion h⟩
        | false => exact ⟨_, rfl, rfl, fun _ => ⟨rfl, rfl⟩⟩

/-- C9 fails for a chord with a further modifier: Control+Shift+Alt+C, whose modifier set
is not `{Control, Shift}`, is consumed, and the selection is copied. -/
theorem ctrl_shift_alt_c_is_consumed :
    GDK_CONTROL_MASK ||| GDK_SHIFT_MASK ||| GDK_MOD1_MASK ≠ GDK_CONTROL_MASK ||| GDK_SHIFT_MASK ∧
    on_key_press (World.of true false (fun _ => true) [])
      { has_selection := true, text_selected := some hello }
      { state := GDK_CONTROL_MASK ||| GDK_SHIFT_MASK ||| GDK_MOD1_MASK, keyval := GDK_KEY_C }
      State.init =
    some { state := State.init
           trace := [Event.vte_terminal_copy_clipboard_format,
                     Event.popen Helper.wl_copy true,
                     Event.fprintf Helper.wl_copy hello true,
                     Event.pclose Helper.wl_copy,
                     Event.g_free]
           consumed := true } := by
  refine ⟨by decide, ?_⟩
  have hcs : ctrl_shift { state := GDK_CONTROL_MASK ||| GDK_SHIFT_MASK ||| GDK_MOD1_MASK,
                          keyval := GDK_KEY_C } = true := by decide
  have hcopy := copy_launched (World.of true false (fun _ => true) []) hello State.init
    Helper.wl_copy [Event.popen Helper.wl_copy true] rfl
  have hh : cstr hello = hello := cstr_eq_self hello (by simp [hello, NUL])
  rw [hh] at hcopy
  unfold on_key_press
  rw [hcs]
  simp only [Bool.true_and, beq_self_eq_true, if_true]
  rw [hcopy]
  rfl

/-- C9 (amended): on a well-formed state the handler completes for every key-press event,
and it consumes the event (returns `TRUE`) if and only if the event's modifier mask has
both the Control and the Shift bit set, whatever other modifier bits it has, and the key is
`C`, `V` or `Q`; in particular the chord with exactly Control and Shift is consumed. An
event that is not consumed causes no action and leaves the state as it was. -/
theorem on_key_press_consumes (w : World) (term : Terminal) (event : GdkEventKey)
    (st : State) (hwf : st.WF) :
    ∃ r, on_key_press w term event st = some r ∧
      (r.consumed = true ↔
        (event.state &&& GDK_CONTROL_MASK = GDK_CONTROL_MASK ∧
          event.state &&& GDK_SHIFT_MASK = GDK_SHIFT_MASK) ∧
        (event.keyval = GDK_KEY_C ∨ event.keyval = GDK_KEY_V ∨ event.keyval = GDK_KEY_Q)) ∧
      (event.state = GDK_CONTROL_MASK ||| GDK_SHIFT_MASK →
        (event.keyval = GDK_KEY_C ∨ event.keyval = GDK_KEY_V ∨ event.keyval = GDK_KEY_Q) →
        r.consumed = true) ∧
      (r.consumed = false → r.state = st ∧ r.trace = []) := by
  obtain ⟨r, h1, h2, h3⟩ := on_key_press_total w term event st hwf
  have hiff : r.consumed = true ↔
      (event.state &&& GDK_CONTROL_MASK = GDK_CONTROL_MASK ∧
        event.state &&& GDK_SHIFT_MASK = GDK_SHIFT_MASK) ∧
      (event.keyval = GDK_KEY_C ∨ event.keyval = GDK_KEY_V ∨ event.keyval = GDK_KEY_Q) := by
    rw [h2, Bool.and_eq_true, ctrl_shift_iff]
    simp only [Bool.or_eq_true, beq_iff_eq, or_assoc]
  refine ⟨r, h1, hiff, ?_, h3⟩
  intro hs hk
  refine hiff.mpr ⟨?_, hk⟩
  rw [hs]
  decide

/-- Witness for C9: Control+Shift+Q on the initial state quits and is consumed; the plain
key `q` is not consumed. -/
theorem on_key_press_consumes_witness :
    (∃ r, on_key_press World.bare { has_selection := false, text_selected := none }
        { state := GDK_CONTROL_MASK ||| GDK_SHIFT_MASK, keyval := GDK_KEY_Q } State.init =
        some r ∧ r.consumed = true) ∧
    (∃ r, on_key_press World.bare { has_selection := false, text_selected := none }
        { state := 0, keyval := 0x071 } State.init = some r ∧
      r.consumed = false ∧ r.state = State.init ∧ r.trace = []) := by
  constructor
  · obtain ⟨r, h1, _, h3, _⟩ := on_key_press_consumes World.bare
      { has_selection := false, text_selected := none }
      { state := GDK_CONTROL_MASK ||| GDK_SHIFT_MASK, keyval := GDK_KEY_Q } State.init init_wf
    exact ⟨r, h1, h3 rfl (Or.inr (Or.inr rfl))⟩
  · obtain ⟨r, h1, h2, _, h4⟩ := on_key_press_consumes World.bare
      { has_selection := false, text_selected := none }
      { state := 0, keyval := 0x071 } State.init init_wf
    have hf : r.consumed = false := by
      cases hc : r.consumed with
      | false => rfl
      | true =>
        have := (h2.mp hc).1.1
        exact absurd this (by decide)
    exact ⟨r, h1, hf, h4 hf⟩

/-! ## C10: a copy delivered to a helper leaves the internal buffer stale -/

/-- C10: whenever copy launches a helper it writes the text to that helper and leaves
`clipboard_internal` (indeed the whole state) as it was, whatever the text; and there are
a text `X` and a buffer content `Y ≠ X` such that after `copy(X)` went to a launched helper,
a paste whose helper delivers nothing, and likewise a paste whose helper cannot be
launched, returns the stale `Y`. -/
theorem copy_to_helper_keeps_internal (w : World) (text : List Byte) (st : State)
    (p : Helper) (hp : (copy_pipe w).1 = some p) :
    (∃ st1 tr, copy_to_system_clipboard w text st = some (st1, tr) ∧
      writes tr = [(p, cstr text)] ∧
      st1.clipboard_internal = st.clipboard_internal ∧ st1 = st) ∧
    (∃ (X Y : List Byte) (st0 st1 : State) (w1 w2 w3 : World) (q q' : Helper)
        (tr : List Event) (r r' : PasteResult),
      Y ≠ X ∧ cstr st0.clipboard_internal = Y ∧
      (copy_pipe w1).1 = some q ∧
      copy_to_system_clipboard w1 X st0 = some (st1, tr) ∧ writes tr = [(q, X)] ∧
      (paste_pipe w2).1 = some q' ∧ w2.output q' = [] ∧
      paste_from_system_clipboard w2 st1 = some r ∧ r.ret = some Y ∧
      (paste_pipe w3).1 = none ∧
      paste_from_system_clipboard w3 st1 = some r' ∧ r'.ret = some Y) := by
  constructor
  · have hp' : copy_pipe w = (some p, (copy_pipe w).2) := Prod.ext hp rfl
    refine ⟨st, _, copy_launched w text st p _ hp', ?_, rfl, rfl⟩
    rw [writes_append, writes_copy_pipe]
    rfl
  · have hwf : State.WF
        { clipboard_internal := stored [89], paste_buffer := State.init.paste_buffer } :=
      ⟨stored_length _, init_wf.2.1, nul_mem_stored _⟩
    have hY : cstr (stored [89]) = [89] := by
      rw [cstr_stored, cstr_eq_self [89] (by simp [NUL])]
      exact List.take_of_length_le (by decide)
    have hh : cstr hello = hello := cstr_eq_self hello (by simp [hello, NUL])
    have hfb : (if cstr (stored [89]) = [] then none else some (cstr (stored [89]))) =
        some ([89] : List Byte) := by
      rw [hY, if_neg (List.cons_ne_nil _ _)]
    obtain ⟨r, h1, _, h3⟩ := paste_ret (World.of true false (fun _ => true) [])
      { clipboard_internal := stored [89], paste_buffer := State.init.paste_buffer } hwf
    obtain ⟨r', h1', _, h3'⟩ := paste_ret (World.of true false (fun _ => false) [])
      { clipboard_internal := stored [89], paste_buffer := State.init.paste_buffer } hwf
    have hq : (paste_pipe (World.of true false (fun _ => true) [])).1 = some Helper.wl_paste :=
      rfl
    have hq' : (paste_pipe (World.of true false (fun _ => false) [])).1 = none := rfl
    have ho : (World.of true false (fun _ => true) []).output Helper.wl_paste = [] := rfl
    rw [hq] at h3
    rw [hq'] at h3'
    simp only [ho, if_true] at h3
    rw [hfb] at h3 h3'
    refine ⟨hello, [89], _, _, World.of true false (fun _ => true) [],
      World.of true false (fun _ => true) [], World.of true false (fun _ => false) [],
      Helper.wl_copy, Helper.wl_paste, _, r, r', ?_, hY, rfl,
      copy_launched _ hello _ Helper.wl_copy [Event.popen Helper.wl_copy true] rfl, ?_,
      hq, ho, h1, h3, hq', h1', h3'⟩
    · unfold hello; simp
    · rw [hh]; rfl

/-- Witness for C10: on Wayland with `wl-copy` launching, `copy("hello")` on the initial
state leaves the state as it was. -/
theorem copy_to_helper_keeps_internal_witness :
    ∃ st1 tr, copy_to_system_clipboard (World.of true false (fun _ => true) []) hello
        State.init = some (st1, tr) ∧
      writes tr = [(Helper.wl_copy, cstr hello)] ∧
      st1.clipboard_internal = State.init.clipboard_internal ∧ st1 = State.init :=
  (copy_to_helper_keeps_internal (World.of true false (fun _ => true) []) hello State.init
    Helper.wl_copy rfl).1

end Water
